import Mathlib

/-
Verification of the Spine animation view (src/src/SpineAnimationView.js).

The development is a shallow embedding of the orchestration layer: the
playback-controller state machine (startAnimation / stopAnimation /
resetAnimation / pause / resume / setFramerate / resetAllAnimations /
getDuration / tick and the engine-invoked completion and event handlers)
and the per-frame presenter `_present`.

Modelling conventions:
  * JavaScript numbers are modelled as `Rat` (the code performs only
    field arithmetic on them); iteration counters as `Int` (the code
    decrements them and compares with `<= 0`).
  * A JS value that may be `undefined` is an `Option`; the JS idiom
    `x || d` on such a value is `jsOrBool` / `jsOrNum` / `jsOrInt`
    (a falsy value - `undefined`, `false`, `0` - selects the default).
  * Callbacks are identified by tokens (`Nat`); invoking a callback is
    modelled by emitting its token in an output list.
  * The external spine engine is a black box: `setAnimationByName`
    records the track-0 arming `(name, loop)`; `state.update` /
    `state.apply` are an engine-time accumulator and an applied-pose
    register; parsing JSON into skeleton data is an environment map.
-/

namespace Spine

/-- JavaScript `x || d` for an optional boolean `x`: a truthy value is
returned as is, a falsy (`false` or `undefined`) value yields `d`. -/
def jsOrBool (x : Option Bool) (d : Bool) : Bool :=
  match x with
  | some b => if b then b else d
  | none => d

/-- JavaScript `x || d` for an optional number `x` (`0` and `undefined`
are falsy). -/
def jsOrNum (x : Option Rat) (d : Rat) : Rat :=
  match x with
  | some q => if q ≠ 0 then q else d
  | none => d

/-- JavaScript `x || d` for an optional integer `x` (`0` and `undefined`
are falsy). -/
def jsOrInt (x : Option Int) (d : Int) : Int :=
  match x with
  | some n => if n ≠ 0 then n else d
  | none => d

/-- An animation of the loaded skeleton data: a name and a duration in
engine seconds. -/
structure Animation where
  name : String
  duration : Rat
deriving Repr, DecidableEq

/-- The loaded skeleton data, reduced to what the view reads from it:
the list of animations (`findAnimation` looks them up by name). -/
structure SkeletonData where
  animations : List Animation
deriving Repr, DecidableEq

/-- Embeds `skeletonData.findAnimation(name)` of the spine engine:
first animation with the given name, if any. -/
def SkeletonData.findAnimation (sd : SkeletonData) (animationName : String) :
    Option Animation :=
  sd.animations.find? (fun a => a.name == animationName)

/-- The record stored in `this._currentAnimationOpts` by `startAnimation`
(lines 42-57): the transient request. -/
structure AnimOpts where
  iterations : Int
  callback : Option Nat
  eventCallback : Option Nat
  loop : Bool
  animationName : String
deriving Repr, DecidableEq

/-- The `opts` argument of `startAnimation` (every field may be absent). -/
structure StartOpts where
  iterations : Option Int := none
  callback : Option Nat := none
  eventCallback : Option Nat := none
  loop : Option Bool := none
deriving Repr, DecidableEq

/-- The construction-time / reset options of the view (`this._opts` and
the `newOpts` of `resetAllAnimations`); every field may be absent.
`jsonText` and `jsonFile` hold the raw strings the code passes to
`JSON.parse` (directly, resp. through `CACHE`). -/
structure ViewOpts where
  spineData : Option SkeletonData := none
  jsonText : Option String := none
  jsonFile : Option String := none
  imagePath : Option String := none
  animationScale : Option Rat := none
  defaultAnimation : Option String := none
  frameRate : Option Rat := none
  defaultMix : Option Rat := none
  loop : Option Bool := none
  autoStart : Option Bool := none
deriving Repr, DecidableEq

/-- Devkit `merge(a, b)`: every field of `a` that is `undefined` is
filled from `b` (used as `merge(newOpts || {}, this._opts)`). -/
def mergeOpts (a b : ViewOpts) : ViewOpts where
  spineData := a.spineData.or b.spineData
  jsonText := a.jsonText.or b.jsonText
  jsonFile := a.jsonFile.or b.jsonFile
  imagePath := a.imagePath.or b.imagePath
  animationScale := a.animationScale.or b.animationScale
  defaultAnimation := a.defaultAnimation.or b.defaultAnimation
  frameRate := a.frameRate.or b.frameRate
  defaultMix := a.defaultMix.or b.defaultMix
  loop := a.loop.or b.loop
  autoStart := a.autoStart.or b.autoStart

/-- The environment of `resetAllAnimations`: `JSON.parse` composed with
the spine `SkeletonJson` reader (`none` models a parse failure), and the
devkit resource `CACHE`. -/
structure Env where
  parseJSON : String → Option SkeletonData
  cache : String → Option String

/-- The mutable state of one SpineAnimationView instance. `track` is the
black-box engine's track 0 as last armed by `state.setAnimationByName`;
`engineTime`, `appliedPose` and `presentedPose` model `state.update`,
`state.apply(skeleton)` and the presenter redraw of `tick`. -/
structure ViewState where
  opts : ViewOpts
  styleVisible : Bool
  isPlaying : Bool
  isOnDefault : Bool
  currentAnimationOpts : Option AnimOpts
  frameRate : Rat
  skeletonData : SkeletonData
  defaultMix : Rat
  track : Option (String × Bool)
  engineTime : Rat
  appliedPose : Rat
  presentedPose : Rat
deriving Repr, DecidableEq

/-- Embeds `this.state.setAnimationByName(0, name, loop)`: arms engine
track 0. -/
def setAnimationByName (s : ViewState) (name : String) (loop : Bool) :
    ViewState :=
  { s with track := some (name, loop) }

/-- Embeds `startAnimation(name, opts)` (lines 34-58). -/
def startAnimation (s : ViewState) (name : String) (opts : Option StartOpts) :
    ViewState :=
  let loop := match opts with
    | some o => jsOrBool o.loop false
    | none => false
  let s := setAnimationByName s name loop
  let s := { s with styleVisible := true, isPlaying := true, isOnDefault := false }
  match opts with
  | some o =>
      { s with currentAnimationOpts := some (
          { iterations := jsOrInt o.iterations 1
            callback := o.callback
            eventCallback := o.eventCallback
            loop := loop
            animationName := name }) }
  | none =>
      { s with currentAnimationOpts := some (
          { iterations := 1
            callback := none
            eventCallback := none
            loop := false
            animationName := name }) }

/-- Embeds `stopAnimation()` (lines 63-68). -/
def stopAnimation (s : ViewState) : ViewState :=
  { s with isOnDefault := true
           styleVisible := false
           isPlaying := false
           currentAnimationOpts := none }

/-- Embeds `resetAnimation()` (lines 73-84); note the armed loop flag is
`this._opts.loop || true`. -/
def resetAnimation (s : ViewState) : ViewState :=
  match s.opts.defaultAnimation with
  | some da =>
      let s := setAnimationByName s da (jsOrBool s.opts.loop true)
      { s with styleVisible := true
               isPlaying := true
               isOnDefault := true
               currentAnimationOpts := none }
  | none => stopAnimation s

/-- Embeds `setFramerate(fps)` (lines 92-94). -/
def setFramerate (s : ViewState) (fps : Option Rat) : ViewState :=
  { s with frameRate := jsOrNum fps 30 }

/-- Embeds `pause()` (lines 99-101). -/
def pause (s : ViewState) : ViewState :=
  { s with isPlaying := false }

/-- Embeds `resume()` (lines 106-108). -/
def resume (s : ViewState) : ViewState :=
  { s with isPlaying := true }

/-- Embeds lines 129-135 of `resetAllAnimations`: `spineData`, else
`JSON.parse(jsonText)`, else `JSON.parse(CACHE[jsonFile])`; `none` covers
both a `JSON.parse` exception and a falsy result, either of which leaves
the view state unchanged. -/
def resolveJsonData (env : Env) (opts : ViewOpts) : Option SkeletonData :=
  match opts.spineData with
  | some d => some d
  | none =>
      match opts.jsonText with
      | some t => env.parseJSON t
      | none =>
          match opts.jsonFile with
          | some f => (env.cache f).bind env.parseJSON
          | none => none

/-- Embeds `resetAllAnimations(newOpts)` (lines 125-204): merge the new
options over `this._opts` into a local `opts` (never written back),
resolve and read the skeleton data, rebuild the engine state (clearing
track 0), arm the default animation with `opts.loop || true` when
configured, and reset the playback fields. -/
def resetAllAnimations (env : Env) (s : ViewState) (newOpts : Option ViewOpts) :
    ViewState :=
  let opts := mergeOpts (newOpts.getD {}) s.opts
  match resolveJsonData env opts with
  | none => s
  | some jsonData =>
      let s := { s with skeletonData := jsonData, track := none }
      let s := { s with defaultMix := jsOrNum opts.defaultMix (0.4 : Rat) }
      let s := match opts.defaultAnimation with
        | some da => setAnimationByName s da (jsOrBool opts.loop true)
        | none => s
      { s with currentAnimationOpts := none
               isOnDefault := true
               isPlaying := jsOrBool opts.autoStart false
               frameRate := jsOrNum opts.frameRate 30 }

/-- Embeds `getDuration(animationName)` (lines 212-216): `throw` is the
`Except.error` branch. -/
def getDuration (s : ViewState) (animationName : String) : Except String Rat :=
  match s.skeletonData.findAnimation animationName with
  | none => Except.error ("Animation not found: " ++ animationName)
  | some animation => Except.ok (animation.duration * 1000 * (30 / s.frameRate))

/-- Embeds the engine completion handler `state.onComplete` registered at
lines 178-195. The returned list holds the tokens of the user callbacks
invoked during the call (`opts.callback && opts.callback()`). -/
def handleComplete (s : ViewState) : ViewState × List Nat :=
  if s.isOnDefault then
    if ¬ jsOrBool s.opts.loop false then (resetAnimation s, []) else (s, [])
  else
    match s.currentAnimationOpts with
    | some opts =>
        if ¬ opts.loop then
          let opts := { opts with iterations := opts.iterations - 1 }
          let s := { s with currentAnimationOpts := some opts }
          if opts.iterations ≤ 0 then
            (resetAnimation s, opts.callback.toList)
          else
            (setAnimationByName s opts.animationName false, [])
        else (s, [])
    | none => (s, [])

/-- Embeds the engine event handler `state.onEvent` registered at lines
197-202: the state is unchanged; the returned list holds the token of the
event callback invoked, if any. -/
def handleEvent (s : ViewState) : ViewState × List Nat :=
  if ¬ s.isOnDefault then
    match s.currentAnimationOpts with
    | some opts => (s, opts.eventCallback.toList)
    | none => (s, [])
  else (s, [])

/-- Embeds `tick(dt)` (lines 229-236): when playing and visible, advance
the engine by `dt * (0.001 * 30 / frameRate)` and apply the pose; then
`_present` redraws the applied pose unconditionally. -/
def tick (s : ViewState) (dt : Rat) : ViewState :=
  let s :=
    if s.isPlaying && s.styleVisible then
      let s := { s with engineTime := s.engineTime + dt * ((0.001 : Rat) * 30 / s.frameRate) }
      { s with appliedPose := s.engineTime }
    else s
  { s with presentedPose := s.appliedPose }

/-- A bone's per-frame world transform as read by `_present`: world
position, rotation (degrees), scale, and the 2x2 rotation/scale matrix
entries `m00, m01, m10, m11`. -/
structure Bone where
  worldX : Rat
  worldY : Rat
  worldRotation : Rat
  worldScaleX : Rat
  worldScaleY : Rat
  m00 : Rat
  m01 : Rat
  m10 : Rat
  m11 : Rat
deriving Repr, DecidableEq

/-- A `spine.RegionAttachment` as read by `_present`: local offset,
local rotation (degrees), natural size, and its `rendererObject`
modelled as an index into the view's `rendererObjects` pool. -/
structure RegionAttachment where
  name : String
  x : Rat
  y : Rat
  rotation : Rat
  width : Rat
  height : Rat
  rendererObject : Nat
deriving Repr, DecidableEq

/-- An attachment of a draw-order slot; only `region` passes the
`instanceof spine.RegionAttachment` test of `_present`. -/
inductive Attachment where
  | region (r : RegionAttachment)
  | boundingBox (name : String)
deriving Repr, DecidableEq

/-- A draw-order entry (`slot.bone`, `slot.attachment`). -/
structure Slot where
  bone : Bone
  attachment : Option Attachment
deriving Repr, DecidableEq

/-- The style fields of one pooled `ImageView` written by `_present`. -/
structure SpriteStyle where
  visible : Bool
  anchorX : Rat
  anchorY : Rat
  width : Rat
  height : Rat
  x : Rat
  y : Rat
  r : Real
  zIndex : Nat

/-- Embeds the hide-all loop of `_present` (lines 246-250): every pooled
sprite is made invisible, all other style fields untouched. -/
def hideAll (pool : List SpriteStyle) : List SpriteStyle :=
  pool.map (fun st => { st with visible := false })

/-- Embeds the style assignment of one shown slot in `_present`
(lines 259-278), at draw-order index `i`. -/
noncomputable def presentStyle (i : Nat) (bone : Bone)
    (attachment : RegionAttachment) : SpriteStyle :=
  let x := bone.worldX + attachment.x * bone.m00 + attachment.y * bone.m01
  let y := bone.worldY + attachment.x * bone.m10 + attachment.y * bone.m11
  let rotation : Real :=
    (((-(bone.worldRotation + attachment.rotation)) : Rat) : Real) * (Real.pi / 180)
  let w := attachment.width * bone.worldScaleX
  let h := attachment.height * bone.worldScaleY
  let hw := w / 2
  let hh := h / 2
  { visible := true
    anchorX := hw
    anchorY := hh
    width := w
    height := h
    x := x - hw
    y := y - hh
    r := rotation
    zIndex := i }

/-- One iteration of the show loop of `_present`: a region attachment
overwrites its renderer object's style, anything else is skipped. -/
noncomputable def presentStep (pool : List SpriteStyle) (e : Nat × Slot) :
    List SpriteStyle :=
  match e.2.attachment with
  | some (Attachment.region a) => pool.set a.rendererObject (presentStyle e.1 e.2.bone a)
  | _ => pool

/-- Embeds `_present` (lines 241-280): hide every pooled sprite, then
walk the draw order front-to-back showing each region attachment at its
index. -/
noncomputable def present (drawOrder : List Slot) (pool : List SpriteStyle) :
    List SpriteStyle :=
  drawOrder.enum.foldl presentStep (hideAll pool)

/-- The renderer-object indices of the region-type entries of a draw
order, in draw order. -/
def regionTargets (drawOrder : List Slot) : List Nat :=
  drawOrder.filterMap (fun slot =>
    match slot.attachment with
    | some (Attachment.region a) => some a.rendererObject
    | _ => none)

/-- The last region-type entry of `drawOrder` writing pool index `j`,
together with its draw-order index counted from `k`: this is the write
that survives the left-to-right show loop. -/
def lastWrite (drawOrder : List Slot) (k : Nat) (j : Nat) :
    Option (Nat × Bone × RegionAttachment) :=
  match drawOrder with
  | [] => none
  | slot :: rest =>
      match lastWrite rest (k + 1) j with
      | some r => some r
      | none =>
          match slot.attachment with
          | some (Attachment.region a) =>
              if a.rendererObject = j then some (k, slot.bone, a) else none
          | _ => none

/-- A user-callback invocation emitted by an engine handler: the token of
a transient request's completion callback or of its event callback. -/
inductive CallbackCall where
  | completeCb (token : Nat)
  | eventCb (token : Nat)
deriving Repr, DecidableEq

/-- One externally triggered transition of the view: a public control
call, an engine callback, or a tick. -/
inductive Ev where
  | start (name : String) (opts : Option StartOpts)
  | stop
  | reset
  | doPause
  | doResume
  | setRate (fps : Option Rat)
  | resetAll (newOpts : Option ViewOpts)
  | complete
  | event
  | tickEv (dt : Rat)

/-- The transition function of the view: dispatches an `Ev` to the
corresponding operation and tags the user callbacks it invoked. -/
def step (env : Env) (s : ViewState) (e : Ev) : ViewState × List CallbackCall :=
  match e with
  | Ev.start name opts => (startAnimation s name opts, [])
  | Ev.stop => (stopAnimation s, [])
  | Ev.reset => (resetAnimation s, [])
  | Ev.doPause => (pause s, [])
  | Ev.doResume => (resume s, [])
  | Ev.setRate fps => (setFramerate s fps, [])
  | Ev.resetAll newOpts => (resetAllAnimations env s newOpts, [])
  | Ev.complete =>
      let r := handleComplete s
      (r.1, r.2.map CallbackCall.completeCb)
  | Ev.event =>
      let r := handleEvent s
      (r.1, r.2.map CallbackCall.eventCb)
  | Ev.tickEv dt => (tick s dt, [])

/-- Runs a sequence of transitions, accumulating the invoked callbacks in
order. -/
def runTrace (env : Env) (s : ViewState) : List Ev → ViewState × List CallbackCall
  | [] => (s, [])
  | e :: rest =>
      let r := step env s e
      let rr := runTrace env r.1 rest
      (rr.1, r.2 ++ rr.2)

/-- Runs `n` consecutive engine completion callbacks, accumulating the
invoked completion-callback tokens in order. -/
def runCompletions (s : ViewState) : Nat → ViewState × List Nat
  | 0 => (s, [])
  | n + 1 =>
      let r := handleComplete s
      let rr := runCompletions r.1 n
      (rr.1, r.2 ++ rr.2)

/-! Concrete sample inputs used to instantiate the theorems below. -/

/-- Sample animation named `idle` with an engine-reported duration of
1.5 seconds. -/
def idleAnim : Animation := { name := "idle", duration := 1.5 }

/-- Sample skeleton data with the single animation `idle`. -/
def sampleData : SkeletonData := { animations := [idleAnim] }

/-- Sample construction options: in-memory data, default animation
`idle`, `loop = true`, `autoStart = true`. -/
def sampleOpts : ViewOpts :=
  { spineData := some sampleData
    defaultAnimation := some "idle"
    loop := some true
    autoStart := some true }

/-- Builds a freshly constructed view state over the given options and
skeleton data (a devkit view starts visible; playback fields as set by
the initial `resetAllAnimations`). -/
def mkState (o : ViewOpts) (sd : SkeletonData) : ViewState :=
  { opts := o
    styleVisible := true
    isPlaying := false
    isOnDefault := true
    currentAnimationOpts := none
    frameRate := 30
    skeletonData := sd
    defaultMix := 0.4
    track := none
    engineTime := 0
    appliedPose := 0
    presentedPose := 0 }

/-- Sample view state over `sampleOpts`. -/
def sampleState : ViewState := mkState sampleOpts sampleData

/-- Sample environment: nothing parses, the resource cache is empty
(the sample options carry in-memory `spineData`, so this is not
consulted on the happy path). -/
def sampleEnv : Env := { parseJSON := fun _ => none, cache := fun _ => none }

/-- Options whose default animation is explicitly configured
non-looping: `defaultAnimation = "idle"`, `loop = false`. -/
def loopFalseOpts : ViewOpts :=
  { spineData := some sampleData
    defaultAnimation := some "idle"
    loop := some false }

/-- Options with a default animation and `autoStart` left unset. -/
def noAutoOpts : ViewOpts :=
  { spineData := some sampleData
    defaultAnimation := some "idle"
    loop := some true }

/-- Override options passed to `resetAllAnimations` in the tests below:
they swap the default animation and the loop flag. -/
def overrideOpts : ViewOpts :=
  { defaultAnimation := some "run", loop := some false }

/-- Skeleton data holding one animation whose duration makes
`getDuration` return a non-integral number of milliseconds. -/
def fracData : SkeletonData :=
  { animations := [{ name := "blip", duration := 0.0005 }] }

/-! Helper lemmas characterizing `resetAllAnimations` by cases on the
resolution of the animation source. -/

/-- When no animation source resolves, `resetAllAnimations` leaves the
state unchanged. -/
theorem resetAllAnimations_unresolved (env : Env) (s : ViewState)
    (newOpts : Option ViewOpts)
    (hres : resolveJsonData env (mergeOpts (newOpts.getD {}) s.opts) = none) :
    resetAllAnimations env s newOpts = s := by
  unfold resetAllAnimations
  simp only [hres]

/-- When the animation source resolves, `resetAllAnimations` rebuilds the
skeleton fields, arms the default animation (with `opts.loop || true`)
when one is configured in the merged options, and resets the playback
fields; `opts`, `styleVisible` and the tick registers are untouched. -/
theorem resetAllAnimations_resolved (env : Env) (s : ViewState)
    (newOpts : Option ViewOpts) (jsonData : SkeletonData)
    (hres : resolveJsonData env (mergeOpts (newOpts.getD {}) s.opts) = some jsonData) :
    resetAllAnimations env s newOpts =
      { s with skeletonData := jsonData
               defaultMix := jsOrNum (mergeOpts (newOpts.getD {}) s.opts).defaultMix (0.4 : Rat)
               track := (mergeOpts (newOpts.getD {}) s.opts).defaultAnimation.map
                   (fun da => (da, jsOrBool (mergeOpts (newOpts.getD {}) s.opts).loop true))
               currentAnimationOpts := none
               isOnDefault := true
               isPlaying := jsOrBool (mergeOpts (newOpts.getD {}) s.opts).autoStart false
               frameRate := jsOrNum (mergeOpts (newOpts.getD {}) s.opts).frameRate 30 } := by
  unfold resetAllAnimations
  simp only [hres]
  cases hda : (mergeOpts (newOpts.getD {}) s.opts).defaultAnimation <;>
    simp [hda, setAnimationByName]

/-! C7 - tick semantics. -/

/-- C7: `tick(dt)` advances the engine time by
`dt * (0.001 * 30 / frameRate)` and applies the resulting pose exactly
when the view is playing and visible; otherwise engine time and applied
pose are unchanged; in either case the presenter redraws the applied
pose. -/
theorem tick_advances_iff_playing_and_visible (s : ViewState) (dt : Rat) :
    (tick s dt).presentedPose = (tick s dt).appliedPose
    ∧ (s.isPlaying = true ∧ s.styleVisible = true →
        (tick s dt).engineTime = s.engineTime + dt * ((0.001 : Rat) * 30 / s.frameRate)
        ∧ (tick s dt).appliedPose = s.engineTime + dt * ((0.001 : Rat) * 30 / s.frameRate))
    ∧ (¬ (s.isPlaying = true ∧ s.styleVisible = true) →
        (tick s dt).engineTime = s.engineTime
        ∧ (tick s dt).appliedPose = s.appliedPose) := by
  cases hp : s.isPlaying <;> cases hv : s.styleVisible <;>
    simp [tick, hp, hv]

/-- Witness for C7: a playing, visible view at 30 fps advances its
engine time by 0.1 on a 100 ms tick; the same view paused does not. -/
theorem tick_advances_iff_playing_and_visible_witness :
    (tick (resume sampleState) 100).engineTime = (0.1 : Rat)
    ∧ (tick (pause sampleState) 100).engineTime = 0 := by
  constructor
  · have h := (tick_advances_iff_playing_and_visible (resume sampleState) 100).2.1
      ⟨rfl, rfl⟩
    rw [h.1]
    simp [resume, sampleState, mkState]
    norm_num
  · have h := (tick_advances_iff_playing_and_visible (pause sampleState) 100).2.2
      (by intro hc; exact absurd hc.1 (by simp [pause]))
    rw [h.1]
    simp [pause, sampleState, mkState]

/-! C10 - `resetAllAnimations` never writes back the merged options. -/

/-- C10: `resetAllAnimations(newOpts)` leaves `this._opts` untouched, so
a later `resetAnimation` (and hence the completion handler's
return-to-default) arms the default animation from the original
construction options, unaffected by the overrides in `newOpts`. -/
theorem resetAllAnimations_preserves_opts (env : Env) (s : ViewState)
    (newOpts : Option ViewOpts) :
    (resetAllAnimations env s newOpts).opts = s.opts
    ∧ (∀ da, s.opts.defaultAnimation = some da →
        (resetAnimation (resetAllAnimations env s newOpts)).track
          = some (da, jsOrBool s.opts.loop true))
    ∧ (s.opts.defaultAnimation = none →
        resetAnimation (resetAllAnimations env s newOpts)
          = stopAnimation (resetAllAnimations env s newOpts)) := by
  have hopts : (resetAllAnimations env s newOpts).opts = s.opts := by
    cases hres : resolveJsonData env (mergeOpts (newOpts.getD {}) s.opts) with
    | none => rw [resetAllAnimations_unresolved env s newOpts hres]
    | some jsonData => rw [resetAllAnimations_resolved env s newOpts jsonData hres]
  refine ⟨hopts, ?_, ?_⟩
  · intro da hda
    unfold resetAnimation
    rw [hopts, hda]
    simp [setAnimationByName]
  · intro hnone
    unfold resetAnimation
    rw [hopts, hnone]

/-- Witness for C10: resetting with overrides that swap the default
animation to `"run"` and the loop flag to `false` still leaves the next
`resetAnimation` arming `("idle", true)` from the original options. -/
theorem resetAllAnimations_preserves_opts_witness :
    (resetAnimation (resetAllAnimations sampleEnv sampleState (some overrideOpts))).track
      = some ("idle", true) := by
  have h := (resetAllAnimations_preserves_opts sampleEnv sampleState
    (some overrideOpts)).2.1 "idle" rfl
  rw [h]
  rfl

/-! C5 - `getDuration`. -/

/-- View state over `fracData`, used to exercise `getDuration` on a
duration whose millisecond value is not an integer. -/
def fracState : ViewState := mkState { spineData := some fracData } fracData

/-- C5 (amended): `getDuration(name)` fails with the
animation-not-found error exactly when `name` is absent from the
skeleton data; otherwise it returns `duration * 1000 * (30 / frameRate)`
milliseconds (the code performs no rounding, so the result is a whole
number only when that product is integral). -/
theorem getDuration_spec (s : ViewState) (animationName : String) :
    ((∃ e, getDuration s animationName = Except.error e) ↔
      ∀ a ∈ s.skeletonData.animations, a.name ≠ animationName)
    ∧ (∀ a, s.skeletonData.findAnimation animationName = some a →
        getDuration s animationName
          = Except.ok (a.duration * 1000 * (30 / s.frameRate))) := by
  constructor
  · constructor
    · rintro ⟨e, he⟩
      unfold getDuration at he
      cases hfind : s.skeletonData.findAnimation animationName with
      | none =>
          intro a ha
          have h := List.find?_eq_none.mp hfind a ha
          simpa using h
      | some a => rw [hfind] at he; exact absurd he (by simp)
    · intro h
      have hfind : s.skeletonData.findAnimation animationName = none := by
        unfold SkeletonData.findAnimation
        rw [List.find?_eq_none]
        intro a ha
        simpa using h a ha
      exact ⟨"Animation not found: " ++ animationName, by unfold getDuration; rw [hfind]⟩
  · intro a hfind
    unfold getDuration
    rw [hfind]

/-- Witness for C5 (amended): `getDuration("idle")` with engine duration
1.5 seconds at `frameRate = 30` returns 1500, and `getDuration("missing")`
fails with the not-found error. -/
theorem getDuration_spec_witness :
    getDuration sampleState "idle" = Except.ok 1500
    ∧ (∃ e, getDuration sampleState "missing" = Except.error e) := by
  constructor
  · have h := (getDuration_spec sampleState "idle").2 idleAnim rfl
    rw [h]
    have hval : idleAnim.duration * 1000 * (30 / sampleState.frameRate) = 1500 := by
      norm_num [idleAnim, sampleState, mkState]
    rw [hval]
  · refine (getDuration_spec sampleState "missing").1.mpr ?_
    intro a ha
    have : a = idleAnim := by simpa [sampleState, mkState, sampleData] using ha
    subst this
    simp [idleAnim]

/-- Counterexample for C5 as stated: the returned number of milliseconds
is not always whole. The animation `blip` has duration 0.0005 seconds, so
at `frameRate = 30` the code returns 0.5 ms, which is not an integer. -/
theorem getDuration_not_whole :
    getDuration fracState "blip" = Except.ok ((1 : Rat) / 2)
    ∧ ¬ (∃ n : Int, ((1 : Rat) / 2) = (n : Rat)) := by
  constructor
  · have hfind : fracState.skeletonData.findAnimation "blip"
        = some { name := "blip", duration := 0.0005 } := rfl
    unfold getDuration
    rw [hfind]
    have hval : ({ name := "blip", duration := 0.0005 : Animation }).duration * 1000
        * (30 / fracState.frameRate) = (1 : Rat) / 2 := by
      norm_num [fracState, mkState]
    show Except.ok (({ name := "blip", duration := 0.0005 : Animation }).duration * 1000
        * (30 / fracState.frameRate)) = Except.ok ((1 : Rat) / 2)
    rw [hval]
  · rintro ⟨n, hn⟩
    have h2 : (2 : Rat) * ((1 : Rat) / 2) = 1 := by norm_num
    rw [hn] at h2
    have h3 : (2 * n : Int) = 1 := by exact_mod_cast h2
    omega

/-! C2 - the loop flag used when arming the default animation. -/

/-- JavaScript `x || true` is true whatever `x` is: a truthy `x` is
`true` itself, and any falsy `x` selects the default `true`. -/
theorem jsOrBool_true (x : Option Bool) : jsOrBool x true = true := by
  cases x with
  | none => rfl
  | some b => cases b <;> rfl

/-- C2 (amended): `resetAnimation`, when a default animation name is
configured, re-arms the engine with that animation and loop flag
`_opts.loop || true`, which is `true` whatever the configuration says -
in particular a default animation explicitly configured with
`loop = false` is still armed looping; likewise initialization
(`resetAllAnimations`) arms the configured default animation looping.
With no default animation configured, `resetAnimation` is
`stopAnimation`. -/
theorem resetAnimation_arms_looping (env : Env) (s : ViewState)
    (newOpts : Option ViewOpts) :
    (∀ da, s.opts.defaultAnimation = some da →
        (resetAnimation s).track = some (da, true)
        ∧ (resetAnimation s).styleVisible = true
        ∧ (resetAnimation s).isPlaying = true
        ∧ (resetAnimation s).isOnDefault = true
        ∧ (resetAnimation s).currentAnimationOpts = none)
    ∧ (s.opts.defaultAnimation = none → resetAnimation s = stopAnimation s)
    ∧ (∀ jsonData da,
        resolveJsonData env (mergeOpts (newOpts.getD {}) s.opts) = some jsonData →
        (mergeOpts (newOpts.getD {}) s.opts).defaultAnimation = some da →
        (resetAllAnimations env s newOpts).track = some (da, true)) := by
  refine ⟨?_, ?_, ?_⟩
  · intro da hda
    unfold resetAnimation
    rw [hda]
    simp [setAnimationByName, jsOrBool_true]
  · intro hnone
    unfold resetAnimation
    rw [hnone]
  · intro jsonData da hres hda
    rw [resetAllAnimations_resolved env s newOpts jsonData hres]
    simp [hda, jsOrBool_true]

/-- Witness for C2 (amended): on a view whose options set
`defaultAnimation = "idle"` and `loop = false` explicitly,
`resetAnimation` arms `("idle", true)`. -/
theorem resetAnimation_arms_looping_witness :
    (resetAnimation (mkState loopFalseOpts sampleData)).track = some ("idle", true) :=
  ((resetAnimation_arms_looping sampleEnv (mkState loopFalseOpts sampleData)
    none).1 "idle" rfl).1

/-- Counterexample for C2 as stated: with the default animation
explicitly configured `loop = false`, `resetAnimation` arms it looping,
not non-looping as the claim requires. -/
theorem resetAnimation_ignores_loop_false :
    (mkState loopFalseOpts sampleData).opts.loop = some false
    ∧ (resetAnimation (mkState loopFalseOpts sampleData)).track = some ("idle", true)
    ∧ (resetAnimation (mkState loopFalseOpts sampleData)).track ≠ some ("idle", false) := by
  have h : (resetAnimation (mkState loopFalseOpts sampleData)).track
      = some ("idle", true) := rfl
  refine ⟨rfl, h, ?_⟩
  rw [h]
  simp

/-! C9 - playback state after `resetAllAnimations`. -/

/-- C9 (amended): after `resetAllAnimations` with a resolvable animation
source, `isPlaying` is exactly the merged `autoStart` flag (false when
unset) and the view's visibility is left unchanged - the call never
hides the view; the state is on-default with no transient request, and
when the merged options configure a default animation the engine is
armed with it. -/
theorem resetAllAnimations_playback (env : Env) (s : ViewState)
    (newOpts : Option ViewOpts) (jsonData : SkeletonData)
    (hres : resolveJsonData env (mergeOpts (newOpts.getD {}) s.opts) = some jsonData) :
    (resetAllAnimations env s newOpts).isPlaying
        = jsOrBool (mergeOpts (newOpts.getD {}) s.opts).autoStart false
    ∧ (resetAllAnimations env s newOpts).styleVisible = s.styleVisible
    ∧ (resetAllAnimations env s newOpts).isOnDefault = true
    ∧ (resetAllAnimations env s newOpts).currentAnimationOpts = none
    ∧ (∀ da, (mergeOpts (newOpts.getD {}) s.opts).defaultAnimation = some da →
        (resetAllAnimations env s newOpts).track
          = some (da, jsOrBool (mergeOpts (newOpts.getD {}) s.opts).loop true)) := by
  rw [resetAllAnimations_resolved env s newOpts jsonData hres]
  refine ⟨rfl, rfl, rfl, rfl, ?_⟩
  intro da hda
  simp [hda]

/-- Witness for C9 (amended), the scenario of the claim: configuring
`defaultAnimation = "idle"`, `loop = true`, `autoStart = true` on a
visible view leaves it playing, visible, on-default, armed with
`("idle", true)` - the default-looping state. -/
theorem resetAllAnimations_playback_witness :
    (resetAllAnimations sampleEnv sampleState none).isPlaying = true
    ∧ (resetAllAnimations sampleEnv sampleState none).styleVisible = true
    ∧ (resetAllAnimations sampleEnv sampleState none).isOnDefault = true
    ∧ (resetAllAnimations sampleEnv sampleState none).track = some ("idle", true) := by
  have h := resetAllAnimations_playback sampleEnv sampleState none sampleData rfl
  refine ⟨?_, ?_, h.2.2.1, ?_⟩
  · rw [h.1]; rfl
  · rw [h.2.1]; rfl
  · rw [h.2.2.2.2 "idle" rfl]; rfl

/-- Counterexample for C9 as stated: without `autoStart`,
`resetAllAnimations` stops playback but does not hide the view - the
claim's `Stopped (isPlaying = false, view hidden)` fails on the
visibility half. -/
theorem resetAllAnimations_leaves_view_visible :
    (resetAllAnimations sampleEnv (mkState noAutoOpts sampleData) none).isPlaying = false
    ∧ (resetAllAnimations sampleEnv (mkState noAutoOpts sampleData) none).styleVisible
        = true := by
  constructor <;> rfl

/-! C8 - the transient/default invariant. -/

/-- Both branches of `resetAnimation` null the transient request. -/
theorem resetAnimation_currentAnimationOpts (s : ViewState) :
    (resetAnimation s).currentAnimationOpts = none := by
  unfold resetAnimation
  cases s.opts.defaultAnimation <;> simp [stopAnimation, setAnimationByName]

/-- Both branches of `resetAnimation` set `_isOnDefault`. -/
theorem resetAnimation_isOnDefault (s : ViewState) :
    (resetAnimation s).isOnDefault = true := by
  unfold resetAnimation
  cases s.opts.defaultAnimation <;> simp [stopAnimation, setAnimationByName]

/-- The engine event handler never changes the view state. -/
theorem handleEvent_fst (s : ViewState) : (handleEvent s).1 = s := by
  unfold handleEvent
  by_cases hd : s.isOnDefault = true <;> cases hc : s.currentAnimationOpts <;>
    simp [hd, hc]

/-- A tick changes only the time registers: the playback fields are
untouched. -/
theorem tick_preserves_playback (s : ViewState) (dt : Rat) :
    (tick s dt).currentAnimationOpts = s.currentAnimationOpts
    ∧ (tick s dt).isOnDefault = s.isOnDefault
    ∧ (tick s dt).opts = s.opts
    ∧ (tick s dt).isPlaying = s.isPlaying
    ∧ (tick s dt).styleVisible = s.styleVisible
    ∧ (tick s dt).track = s.track := by
  unfold tick
  by_cases hcond : (s.isPlaying && s.styleVisible) = true <;> simp [hcond]

/-- The completion handler preserves the invariant that a transient
request exists only off-default. -/
theorem handleComplete_invariant (s : ViewState)
    (h : ∀ o, s.currentAnimationOpts = some o → s.isOnDefault = false) :
    ∀ o2, (handleComplete s).1.currentAnimationOpts = some o2 →
      (handleComplete s).1.isOnDefault = false := by
  intro o2 ho2
  by_cases hd : s.isOnDefault = true
  · have hc : s.currentAnimationOpts = none := by
      cases hcc : s.currentAnimationOpts with
      | none => rfl
      | some o => exact absurd (h o hcc) (by simp [hd])
    by_cases hl : jsOrBool s.opts.loop false = true
    · simp [handleComplete, hd, hl, hc] at ho2
    · simp [handleComplete, hd, hl, resetAnimation_currentAnimationOpts] at ho2
  · have hdf : s.isOnDefault = false := by simpa using hd
    cases hc : s.currentAnimationOpts with
    | none =>
        simp only [handleComplete, hdf, hc] at ho2 ⊢
        simpa using hdf
    | some o =>
        by_cases hl : o.loop = true
        · simp only [handleComplete, hdf, hc] at ho2 ⊢
          simpa [hl] using hdf
        · have hlf : o.loop = false := by simpa using hl
          by_cases hit : o.iterations - 1 ≤ 0
          · simp [handleComplete, hdf, hc, hlf, hit,
              resetAnimation_currentAnimationOpts] at ho2
          · simp only [handleComplete, hdf, hc] at ho2 ⊢
            simp [hlf, hit, setAnimationByName, hdf]

/-- C8: every transition of the view - each public operation
(`startAnimation`, `stopAnimation`, `resetAnimation`, `pause`, `resume`,
`setFramerate`, `resetAllAnimations`), each engine callback and the tick -
preserves the invariant that `_currentAnimationOpts` is non-null only
when `_isOnDefault` is false, so the view is always in exactly one of the
three states no-animation / default / transient. -/
theorem step_preserves_invariant (env : Env) (s : ViewState) (e : Ev)
    (h : ∀ o, s.currentAnimationOpts = some o → s.isOnDefault = false) :
    ∀ o, (step env s e).1.currentAnimationOpts = some o →
      (step env s e).1.isOnDefault = false := by
  cases e with
  | start name opts =>
      intro o ho
      cases opts <;> simp [step, startAnimation, setAnimationByName]
  | stop => intro o ho; simp [step, stopAnimation] at ho
  | reset => intro o ho; simp [step, resetAnimation_currentAnimationOpts] at ho
  | doPause => intro o ho; simp only [step, pause] at ho ⊢; exact h o ho
  | doResume => intro o ho; simp only [step, resume] at ho ⊢; exact h o ho
  | setRate fps => intro o ho; simp only [step, setFramerate] at ho ⊢; exact h o ho
  | resetAll newOpts =>
      intro o ho
      cases hres : resolveJsonData env (mergeOpts (newOpts.getD {}) s.opts) with
      | none =>
          simp only [step, resetAllAnimations_unresolved env s newOpts hres] at ho ⊢
          exact h o ho
      | some jd =>
          simp [step, resetAllAnimations_resolved env s newOpts jd hres] at ho
  | complete => exact handleComplete_invariant s h
  | event =>
      intro o ho
      simp only [step, handleEvent_fst] at ho ⊢
      exact h o ho
  | tickEv dt =>
      intro o ho
      rw [step] at ho ⊢
      rw [(tick_preserves_playback s dt).1] at ho
      rw [(tick_preserves_playback s dt).2.1]
      exact h o ho

/-- Witness for C8: a two-iteration transient `jump` request receives
one engine completion; the surviving request still implies the view is
off-default. -/
theorem step_preserves_invariant_witness :
    (step sampleEnv
        (startAnimation sampleState "jump"
          (some { iterations := some 2, callback := some 9 }))
        Ev.complete).1.isOnDefault = false :=
  step_preserves_invariant sampleEnv
    (startAnimation sampleState "jump"
      (some { iterations := some 2, callback := some 9 }))
    Ev.complete (fun _ _ => rfl)
    { iterations := 1, callback := some 9, eventCallback := none
      loop := false, animationName := "jump" } rfl

/-! C6 - an overwritten transient request's completion callback never
fires. -/

/-- The transient request recorded by `startAnimation`. -/
theorem startAnimation_currentOpts (s : ViewState) (name : String)
    (opts : Option StartOpts) :
    (startAnimation s name opts).currentAnimationOpts = some
      (match opts with
       | some o =>
           { iterations := jsOrInt o.iterations 1
             callback := o.callback
             eventCallback := o.eventCallback
             loop := jsOrBool o.loop false
             animationName := name }
       | none =>
           { iterations := 1
             callback := none
             eventCallback := none
             loop := false
             animationName := name }) := by
  cases opts <;> rfl

/-- Holds when an event does not (re)introduce completion-callback token
`c`: it is not a `startAnimation` whose options carry `callback = c`. -/
def EvAvoids (c : Nat) : Ev → Prop
  | Ev.start _ (some o) => o.callback ≠ some c
  | _ => True

/-- Holds when no transient request in the state carries completion
callback token `c`. -/
def StateAvoids (c : Nat) (s : ViewState) : Prop :=
  ∀ o, s.currentAnimationOpts = some o → o.callback ≠ some c

/-- One transition from a `c`-avoiding state by a `c`-avoiding event
stays `c`-avoiding and cannot invoke completion callback `c`. -/
theorem step_avoids (env : Env) (c : Nat) (s : ViewState) (e : Ev)
    (hs : StateAvoids c s) (he : EvAvoids c e) :
    StateAvoids c (step env s e).1
    ∧ CallbackCall.completeCb c ∉ (step env s e).2 := by
  cases e with
  | start name opts =>
      refine ⟨?_, by simp [step]⟩
      intro o3 ho3
      rw [show (step env s (Ev.start name opts)).1 = startAnimation s name opts
        from rfl, startAnimation_currentOpts] at ho3
      cases opts with
      | none =>
          injection ho3 with h3
          rw [← h3]
          simp
      | some oo =>
          injection ho3 with h3
          rw [← h3]
          exact he
  | stop =>
      refine ⟨?_, by simp [step]⟩
      intro o3 ho3
      simp [step, stopAnimation] at ho3
  | reset =>
      refine ⟨?_, by simp [step]⟩
      intro o3 ho3
      simp [step, resetAnimation_currentAnimationOpts] at ho3
  | doPause =>
      refine ⟨?_, by simp [step]⟩
      intro o3 ho3
      exact hs o3 ho3
  | doResume =>
      refine ⟨?_, by simp [step]⟩
      intro o3 ho3
      exact hs o3 ho3
  | setRate fps =>
      refine ⟨?_, by simp [step]⟩
      intro o3 ho3
      exact hs o3 ho3
  | resetAll newOpts =>
      refine ⟨?_, by simp [step]⟩
      intro o3 ho3
      cases hres : resolveJsonData env (mergeOpts (newOpts.getD {}) s.opts) with
      | none =>
          rw [show (step env s (Ev.resetAll newOpts)).1
              = resetAllAnimations env s newOpts from rfl,
            resetAllAnimations_unresolved env s newOpts hres] at ho3
          exact hs o3 ho3
      | some jd =>
          rw [show (step env s (Ev.resetAll newOpts)).1
              = resetAllAnimations env s newOpts from rfl,
            resetAllAnimations_resolved env s newOpts jd hres] at ho3
          simp at ho3
  | complete =>
      have hfst : (step env s Ev.complete).1 = (handleComplete s).1 := rfl
      have hsnd : (step env s Ev.complete).2
          = (handleComplete s).2.map CallbackCall.completeCb := rfl
      rw [hfst, hsnd]
      by_cases hd : s.isOnDefault = true
      · have hc : ∀ o, s.currentAnimationOpts = some o → o.callback ≠ some c := hs
        by_cases hl : jsOrBool s.opts.loop false = true
        · constructor
          · intro o3 ho3
            simp only [handleComplete, hd, hl] at ho3
            simp at ho3
            exact hs o3 ho3
          · simp [handleComplete, hd, hl]
        · constructor
          · intro o3 ho3
            simp only [handleComplete, hd, hl] at ho3
            simp [resetAnimation_currentAnimationOpts] at ho3
          · simp [handleComplete, hd, hl]
      · have hdf : s.isOnDefault = false := by simpa using hd
        cases hcc : s.currentAnimationOpts with
        | none =>
            constructor
            · intro o3 ho3
              simp only [handleComplete, hdf, hcc] at ho3
              simp [hcc] at ho3
            · simp [handleComplete, hdf, hcc]
        | some o =>
            by_cases hl : o.loop = true
            · constructor
              · intro o3 ho3
                simp only [handleComplete, hdf, hcc, hl] at ho3
                simp at ho3
                rw [hcc] at ho3
                injection ho3 with h3
                rw [← h3]
                exact hs o hcc
              · simp [handleComplete, hdf, hcc, hl]
            · have hlf : o.loop = false := by simpa using hl
              by_cases hit : o.iterations - 1 ≤ 0
              · constructor
                · intro o3 ho3
                  simp [handleComplete, hdf, hcc, hlf, hit,
                    resetAnimation_currentAnimationOpts] at ho3
                · have hcb := hs o hcc
                  simp only [handleComplete, hdf, hcc, hlf, hit]
                  simp [hit, hlf]
                  cases hcbv : o.callback with
                  | none => simp [Option.toList]
                  | some cb =>
                      simp [Option.toList]
                      intro hcontra
                      exact hcb (by rw [hcbv, hcontra])
              · constructor
                · intro o3 ho3
                  simp only [handleComplete, hdf, hcc, hlf, hit] at ho3
                  simp [hit, hlf, setAnimationByName] at ho3
                  subst ho3
                  exact hs o hcc
                · simp [handleComplete, hdf, hcc, hlf, hit]
  | event =>
      constructor
      · intro o3 ho3
        rw [show (step env s Ev.event).1 = (handleEvent s).1 from rfl,
          handleEvent_fst] at ho3
        exact hs o3 ho3
      · rw [show (step env s Ev.event).2
            = (handleEvent s).2.map CallbackCall.eventCb from rfl]
        simp
  | tickEv dt =>
      refine ⟨?_, by simp [step]⟩
      intro o3 ho3
      rw [show (step env s (Ev.tickEv dt)).1 = tick s dt from rfl,
        (tick_preserves_playback s dt).1] at ho3
      exact hs o3 ho3

/-- A whole trace of `c`-avoiding events from a `c`-avoiding state never
invokes completion callback `c`. -/
theorem runTrace_avoids (env : Env) (c : Nat) (tr : List Ev) :
    ∀ s : ViewState, StateAvoids c s → (∀ e ∈ tr, EvAvoids c e) →
      CallbackCall.completeCb c ∉ (runTrace env s tr).2 := by
  induction tr with
  | nil => intro s hs htr; simp [runTrace]
  | cons e rest ih =>
      intro s hs htr
      have h1 := step_avoids env c s e hs (htr e (List.mem_cons_self e rest))
      have h2 := ih (step env s e).1 h1.1
        (fun x hx => htr x (List.mem_cons_of_mem e hx))
      unfold runTrace
      simp only [List.mem_append]
      intro hmem
      cases hmem with
      | inl hm => exact h1.2 hm
      | inr hm => exact h2 hm

/-- C6: when a transient request whose completion callback is token `c`
is in flight and a later `startAnimation` (not itself registering `c`)
overwrites it, no subsequent run of control calls, ticks and engine
callbacks that does not re-register `c` ever invokes completion callback
`c`: the abandoned request's callback never fires. -/
theorem overwritten_callback_never_fires (env : Env) (s : ViewState)
    (c : Nat) (o : AnimOpts)
    (_hin : s.currentAnimationOpts = some o) (_hcb : o.callback = some c)
    (name2 : String) (o2 : Option StartOpts)
    (h2 : EvAvoids c (Ev.start name2 o2))
    (tr : List Ev) (htr : ∀ e ∈ tr, EvAvoids c e) :
    CallbackCall.completeCb c ∉ (runTrace env (startAnimation s name2 o2) tr).2 := by
  apply runTrace_avoids env c tr _ _ htr
  intro o3 ho3
  rw [startAnimation_currentOpts] at ho3
  cases o2 with
  | none =>
      injection ho3 with h3
      rw [← h3]
      simp
  | some oo =>
      injection ho3 with h3
      rw [← h3]
      exact h2

/-- The transient `jump` request of the C6 witness: 3 iterations,
completion callback token 7. -/
def jumpOpts : StartOpts := { iterations := some 3, callback := some 7 }

/-- Witness for C6: a `jump` request with callback token 7 is overwritten
by `startAnimation("run")`; three engine completions then fire without
ever invoking callback 7. -/
theorem overwritten_callback_never_fires_witness :
    CallbackCall.completeCb 7 ∉
      (runTrace sampleEnv
        (startAnimation (startAnimation sampleState "jump" (some jumpOpts)) "run" none)
        [Ev.complete, Ev.complete, Ev.complete]).2 := by
  apply overwritten_callback_never_fires sampleEnv
    (startAnimation sampleState "jump" (some jumpOpts)) 7
    { iterations := 3, callback := some 7, eventCallback := none
      loop := false, animationName := "jump" }
    rfl rfl "run" none trivial
  intro e he
  simp at he
  subst he
  trivial

/-! C1 - a non-looping transient request with N iterations. -/

/-- The default branch of `resetAnimation`: re-arms the configured
default animation with `_opts.loop || true`, shows the view, resumes
playback. -/
theorem resetAnimation_default (s : ViewState) (da : String)
    (hda : s.opts.defaultAnimation = some da) :
    (resetAnimation s).track = some (da, jsOrBool s.opts.loop true)
    ∧ (resetAnimation s).styleVisible = true
    ∧ (resetAnimation s).isPlaying = true := by
  unfold resetAnimation
  rw [hda]
  simp [setAnimationByName]

/-- The no-default branch of `resetAnimation` is `stopAnimation`. -/
theorem resetAnimation_noDefault (s : ViewState)
    (hda : s.opts.defaultAnimation = none) :
    resetAnimation s = stopAnimation s := by
  unfold resetAnimation
  rw [hda]

/-- `resetAnimation` never changes `_opts`. -/
theorem resetAnimation_opts (s : ViewState) : (resetAnimation s).opts = s.opts := by
  unfold resetAnimation
  cases s.opts.defaultAnimation <;> simp [stopAnimation, setAnimationByName]

/-- `resetAnimation` ignores the incoming transient request (both
branches overwrite it), so it may be dropped from its argument. -/
theorem resetAnimation_set_opts (s : ViewState) (o : Option AnimOpts) :
    resetAnimation { s with currentAnimationOpts := o } = resetAnimation s := by
  unfold resetAnimation
  cases h : s.opts.defaultAnimation <;> simp [h, stopAnimation, setAnimationByName]

/-- A non-looping transient request is in flight: off-default, with the
given animation name, completion callback and remaining iteration
count. -/
def TransientReq (s : ViewState) (name : String) (cb : Option Nat) (n : Int) : Prop :=
  s.isOnDefault = false
  ∧ ∃ ec, s.currentAnimationOpts = some
      { iterations := n, callback := cb, eventCallback := ec
        loop := false, animationName := name }

/-- An engine completion of a non-looping transient request with at least
2 remaining iterations decrements the count, re-arms the same animation
non-looping, and invokes nothing. -/
theorem handleComplete_rearm (s : ViewState) (name : String) (cb : Option Nat)
    (n : Int) (ht : TransientReq s name cb n) (hn : 2 ≤ n) :
    TransientReq (handleComplete s).1 name cb (n - 1)
    ∧ (handleComplete s).1.track = some (name, false)
    ∧ (handleComplete s).1.opts = s.opts
    ∧ (handleComplete s).2 = [] := by
  obtain ⟨hdf, ec, hcc⟩ := ht
  have hit : ¬ (n - 1 ≤ 0) := by omega
  refine ⟨⟨?_, ec, ?_⟩, ?_, ?_, ?_⟩ <;>
    simp [handleComplete, hdf, hcc, hit, setAnimationByName]

/-- An engine completion of a non-looping transient request with at most
one remaining iteration invokes exactly the request's completion
callback and then runs `resetAnimation`: back to the default-looping
state when a default animation is configured, stopped otherwise. -/
theorem handleComplete_final (s : ViewState) (name : String) (cb : Option Nat)
    (n : Int) (ht : TransientReq s name cb n) (hn : n ≤ 1) :
    (handleComplete s).2 = cb.toList
    ∧ (handleComplete s).1.currentAnimationOpts = none
    ∧ (handleComplete s).1.isOnDefault = true
    ∧ (handleComplete s).1.opts = s.opts
    ∧ (∀ da, s.opts.defaultAnimation = some da →
        (handleComplete s).1.track = some (da, true)
        ∧ (handleComplete s).1.isPlaying = true
        ∧ (handleComplete s).1.styleVisible = true)
    ∧ (s.opts.defaultAnimation = none →
        (handleComplete s).1.isPlaying = false
        ∧ (handleComplete s).1.styleVisible = false) := by
  obtain ⟨hdf, ec, hcc⟩ := ht
  have hit : n - 1 ≤ 0 := by omega
  have hfst : (handleComplete s).1 = resetAnimation s := by
    have h0 : (handleComplete s).1 = resetAnimation
        { s with currentAnimationOpts := some (
            { iterations := n - 1, callback := cb, eventCallback := ec
              loop := false, animationName := name }) } := by
      simp [handleComplete, hdf, hcc, hit]
    rw [h0, resetAnimation_set_opts]
  have hsnd : (handleComplete s).2 = cb.toList := by
    simp [handleComplete, hdf, hcc, hit]
  refine ⟨hsnd, ?_, ?_, ?_, ?_, ?_⟩
  · rw [hfst, resetAnimation_currentAnimationOpts]
  · rw [hfst, resetAnimation_isOnDefault]
  · rw [hfst, resetAnimation_opts]
  · intro da hda
    rw [hfst]
    have h := resetAnimation_default s da hda
    rw [jsOrBool_true] at h
    exact ⟨h.1, h.2.2, h.2.1⟩
  · intro hda
    rw [hfst, resetAnimation_noDefault s hda]
    exact ⟨rfl, rfl⟩

/-- Running exactly `n` engine completions from a non-looping transient
request with `n` remaining iterations: the completion callback is
invoked exactly once, on the last completion; each earlier completion
leaves the decremented request re-armed non-looping with no callback
invoked; afterwards the view is back on default (default-looping when a
default animation is configured, stopped otherwise). -/
theorem runCompletions_transient (n : Nat) :
    ∀ (s : ViewState) (name : String) (cb : Option Nat),
      TransientReq s name cb (n : Int) → 1 ≤ n →
      (runCompletions s n).2 = cb.toList
      ∧ (runCompletions s n).1.currentAnimationOpts = none
      ∧ (runCompletions s n).1.isOnDefault = true
      ∧ (∀ da, s.opts.defaultAnimation = some da →
          (runCompletions s n).1.track = some (da, true)
          ∧ (runCompletions s n).1.isPlaying = true
          ∧ (runCompletions s n).1.styleVisible = true)
      ∧ (s.opts.defaultAnimation = none →
          (runCompletions s n).1.isPlaying = false
          ∧ (runCompletions s n).1.styleVisible = false)
      ∧ (∀ k, k < n →
          (runCompletions s k).2 = []
          ∧ (∃ ec, (runCompletions s k).1.currentAnimationOpts
              = some { iterations := (n : Int) - (k : Int), callback := cb
                       eventCallback := ec, loop := false, animationName := name })
          ∧ (1 ≤ k → (runCompletions s k).1.track = some (name, false))) := by
  induction n with
  | zero => intro s name cb ht h1; omega
  | succ m ih =>
      intro s name cb ht h1
      have hfst1 : ∀ t : ViewState, (runCompletions t (m + 1)).1
          = (runCompletions (handleComplete t).1 m).1 := fun t => rfl
      have hsnd1 : ∀ t : ViewState, (runCompletions t (m + 1)).2
          = (handleComplete t).2 ++ (runCompletions (handleComplete t).1 m).2 :=
        fun t => rfl
      by_cases hm : m = 0
      · subst hm
        have hfin := handleComplete_final s name cb 1 (by exact_mod_cast ht) le_rfl
        have hone : ∀ t : ViewState, runCompletions t 1
            = ((handleComplete t).1, (handleComplete t).2 ++ []) := fun t => rfl
        rw [hone]
        simp only [List.append_nil]
        refine ⟨hfin.1, hfin.2.1, hfin.2.2.1, ?_, ?_, ?_⟩
        · intro da hda
          exact hfin.2.2.2.2.1 da hda
        · intro hda
          exact hfin.2.2.2.2.2 hda
        · intro k hk
          have hk0 : k = 0 := by omega
          subst hk0
          obtain ⟨hdf, ec, hcc⟩ := ht
          refine ⟨rfl, ⟨ec, ?_⟩, by omega⟩
          rw [show (runCompletions s 0).1 = s from rfl, hcc]
          norm_num
      · have hm1 : 1 ≤ m := by omega
        have hge2 : (2 : Int) ≤ ((m + 1 : Nat) : Int) := by push_cast; omega
        have hA := handleComplete_rearm s name cb ((m + 1 : Nat) : Int) ht hge2
        have hcast : ((m + 1 : Nat) : Int) - 1 = (m : Int) := by push_cast; ring
        rw [hcast] at hA
        have hB := ih (handleComplete s).1 name cb hA.1 hm1
        have hopts : (handleComplete s).1.opts = s.opts := hA.2.2.1
        rw [hfst1, hsnd1, hA.2.2.2]
        simp only [List.nil_append]
        refine ⟨hB.1, hB.2.1, hB.2.2.1, ?_, ?_, ?_⟩
        · intro da hda
          exact hB.2.2.2.1 da (by rw [hopts]; exact hda)
        · intro hda
          exact hB.2.2.2.2.1 (by rw [hopts]; exact hda)
        · intro k hk
          cases k with
          | zero =>
              obtain ⟨hdf, ec, hcc⟩ := ht
              refine ⟨rfl, ⟨ec, ?_⟩, by omega⟩
              rw [show (runCompletions s 0).1 = s from rfl, hcc]
              norm_num
          | succ k2 =>
              have hk2 : k2 < m := by omega
              have hpre := hB.2.2.2.2.2 k2 hk2
              have hfstk : (runCompletions s (k2 + 1)).1
                  = (runCompletions (handleComplete s).1 k2).1 := rfl
              have hsndk : (runCompletions s (k2 + 1)).2
                  = (handleComplete s).2 ++ (runCompletions (handleComplete s).1 k2).2 :=
                rfl
              refine ⟨?_, ?_, ?_⟩
              · rw [hsndk, hA.2.2.2, hpre.1]
                rfl
              · obtain ⟨ec, hec⟩ := hpre.2.1
                refine ⟨ec, ?_⟩
                rw [hfstk, hec]
                have : (m : Int) - (k2 : Int) = ((m + 1 : Nat) : Int) - ((k2 + 1 : Nat) : Int) := by
                  push_cast; ring
                rw [this]
              · intro hk1
                rw [hfstk]
                cases Nat.eq_zero_or_pos k2 with
                | inl hz =>
                    subst hz
                    rw [show (runCompletions (handleComplete s).1 0).1
                        = (handleComplete s).1 from rfl]
                    exact hA.2.1
                | inr hpos => exact hpre.2.2 hpos

/-- C1: starting a non-looping transient animation with
`iterations = N >= 1` and completion callback `cb`, then receiving `N`
engine completions: the callback fires exactly once, on the N-th
completion; each of the first N-1 completions fires no callback, leaves
the remaining count at `N - k` and re-arms the same animation for one
more non-looping cycle; after the N-th completion `resetAnimation` has
run - the view is in the default-looping state when a default animation
is configured (armed looping, playing, visible), otherwise stopped. -/
theorem transient_n_iterations (s0 : ViewState) (name : String) (so : StartOpts)
    (N : Nat) (cb : Nat)
    (hN : so.iterations = some (N : Int)) (h1 : 1 ≤ N)
    (hcb : so.callback = some cb) (hloop : jsOrBool so.loop false = false) :
    (runCompletions (startAnimation s0 name (some so)) N).2 = [cb]
    ∧ (runCompletions (startAnimation s0 name (some so)) N).1.currentAnimationOpts = none
    ∧ (runCompletions (startAnimation s0 name (some so)) N).1.isOnDefault = true
    ∧ (∀ da, s0.opts.defaultAnimation = some da →
        (runCompletions (startAnimation s0 name (some so)) N).1.track = some (da, true)
        ∧ (runCompletions (startAnimation s0 name (some so)) N).1.isPlaying = true
        ∧ (runCompletions (startAnimation s0 name (some so)) N).1.styleVisible = true)
    ∧ (s0.opts.defaultAnimation = none →
        (runCompletions (startAnimation s0 name (some so)) N).1.isPlaying = false
        ∧ (runCompletions (startAnimation s0 name (some so)) N).1.styleVisible = false)
    ∧ (∀ k, k < N →
        (runCompletions (startAnimation s0 name (some so)) k).2 = []
        ∧ (∃ ec, (runCompletions (startAnimation s0 name (some so)) k).1.currentAnimationOpts
            = some { iterations := (N : Int) - (k : Int), callback := some cb
                     eventCallback := ec, loop := false, animationName := name })
        ∧ (1 ≤ k → (runCompletions (startAnimation s0 name (some so)) k).1.track
            = some (name, false))) := by
  have hNne : ((N : Int)) ≠ 0 := by
    have : (0 : Int) < (N : Int) := by exact_mod_cast h1
    omega
  have hit : jsOrInt so.iterations 1 = (N : Int) := by
    rw [hN]
    unfold jsOrInt
    simp [hNne]
  have hreq : TransientReq (startAnimation s0 name (some so)) name (some cb) (N : Int) := by
    refine ⟨rfl, so.eventCallback, ?_⟩
    rw [startAnimation_currentOpts]
    show some ({ iterations := jsOrInt so.iterations 1, callback := so.callback
                 eventCallback := so.eventCallback, loop := jsOrBool so.loop false
                 animationName := name } : AnimOpts) = _
    rw [hit, hcb, hloop]
  have h := runCompletions_transient N (startAnimation s0 name (some so)) name
    (some cb) hreq h1
  refine ⟨h.1, h.2.1, h.2.2.1, ?_, ?_, h.2.2.2.2.2⟩
  · intro da hda
    exact h.2.2.2.1 da hda
  · intro hda
    exact h.2.2.2.2.1 hda

/-- Transient request of the C1 witness: 2 iterations, callback token
9. -/
def twoIterOpts : StartOpts := { iterations := some 2, callback := some 9 }

/-- Witness for C1, the spec scenario: `startAnimation("jump",
{iterations: 2, callback})` then two engine completions - no callback and
a non-looping `jump` re-arm after the first, callback fired exactly once
and the default `idle` armed looping after the second. -/
theorem transient_n_iterations_witness :
    (runCompletions (startAnimation sampleState "jump" (some twoIterOpts)) 2).2 = [9]
    ∧ (runCompletions (startAnimation sampleState "jump" (some twoIterOpts)) 2).1.track
        = some ("idle", true)
    ∧ (runCompletions (startAnimation sampleState "jump" (some twoIterOpts)) 1).2 = []
    ∧ (runCompletions (startAnimation sampleState "jump" (some twoIterOpts)) 1).1.track
        = some ("jump", false) := by
  have h := transient_n_iterations sampleState "jump" twoIterOpts 2 9
    (by norm_num [twoIterOpts]) (by omega) rfl rfl
  exact ⟨h.1, (h.2.2.2.1 "idle" rfl).1, (h.2.2.2.2.2 1 (by omega)).1,
    (h.2.2.2.2.2 1 (by omega)).2.2 (by omega)⟩

/-! C3, C4 - the presenter `_present`. -/

/-- One show-loop iteration preserves the pool size. -/
theorem presentStep_length (p : List SpriteStyle) (e : Nat × Slot) :
    (presentStep p e).length = p.length := by
  unfold presentStep
  cases h : e.2.attachment with
  | none => rfl
  | some a => cases a <;> simp

/-- Hiding the pool preserves its size. -/
theorem hideAll_length (p : List SpriteStyle) : (hideAll p).length = p.length := by
  simp [hideAll]

/-- An entry of the hidden pool is the original entry made invisible. -/
theorem hideAll_getElem (p : List SpriteStyle) (j : Nat) :
    (hideAll p)[j]? = p[j]?.map (fun st => { st with visible := false }) := by
  simp [hideAll, List.getElem?_map]

/-- The whole show loop preserves the pool size. -/
theorem foldl_presentStep_length (l : List (Nat × Slot)) (p : List SpriteStyle) :
    (l.foldl presentStep p).length = p.length := by
  induction l generalizing p with
  | nil => rfl
  | cons e rest ih => rw [List.foldl_cons, ih, presentStep_length]

/-- `present` preserves the pool size. -/
theorem present_length (drawOrder : List Slot) (pool : List SpriteStyle) :
    (present drawOrder pool).length = pool.length := by
  unfold present
  rw [foldl_presentStep_length, hideAll_length]

/-- The show loop leaves pool entry `j` at the style of the last write
targeting `j`, or untouched when no entry targets `j`. -/
theorem foldl_presentStep_getElem (d : List Slot) (k : Nat) (p : List SpriteStyle)
    (j : Nat) (hj : j < p.length) :
    ((d.enumFrom k).foldl presentStep p)[j]? =
      (match lastWrite d k j with
       | some r => some (presentStyle r.1 r.2.1 r.2.2)
       | none => p[j]?) := by
  induction d generalizing k p with
  | nil => simp [lastWrite, List.enumFrom]
  | cons slot rest ih =>
      have henum : (slot :: rest).enumFrom k = (k, slot) :: rest.enumFrom (k + 1) := by
        simp [List.enumFrom]
      rw [henum, List.foldl_cons]
      have hj2 : j < (presentStep p (k, slot)).length := by
        rw [presentStep_length]; exact hj
      rw [ih (k + 1) (presentStep p (k, slot)) hj2]
      rw [lastWrite]
      cases hlw : lastWrite rest (k + 1) j with
      | some r => rfl
      | none =>
          cases hatt : slot.attachment with
          | none => simp [presentStep, hatt]
          | some a =>
              cases a with
              | region ra =>
                  by_cases hro : ra.rendererObject = j
                  · simp [presentStep, hatt, hro, List.getElem?_set, hj]
                  · simp [presentStep, hatt, hro, List.getElem?_set]
              | boundingBox bname => simp [presentStep, hatt]

/-- Unfolds `regionTargets` over the head of the draw order. -/
theorem regionTargets_cons (slot : Slot) (rest : List Slot) :
    regionTargets (slot :: rest)
      = (match slot.attachment with
         | some (Attachment.region a) => a.rendererObject :: regionTargets rest
         | _ => regionTargets rest) := by
  unfold regionTargets
  rw [List.filterMap_cons]
  cases h : slot.attachment with
  | none => rfl
  | some b => cases b <;> rfl

/-- Some entry of the draw order writes pool index `j` exactly when `j`
is a region target. -/
theorem lastWrite_isSome_iff (d : List Slot) (j : Nat) :
    ∀ k, (lastWrite d k j).isSome = true ↔ j ∈ regionTargets d := by
  induction d with
  | nil => intro k; simp [lastWrite, regionTargets]
  | cons slot rest ih =>
      intro k
      rw [lastWrite, regionTargets_cons]
      cases hlw : lastWrite rest (k + 1) j with
      | some r =>
          have hmem := (ih (k + 1)).mp (by rw [hlw]; rfl)
          cases hatt : slot.attachment with
          | none => simpa using hmem
          | some a =>
              cases a with
              | region ra => simp only [Option.isSome_some, true_iff]; simp [hmem]
              | boundingBox bn => simpa using hmem
      | none =>
          have hnotin : j ∉ regionTargets rest := fun hmem => by
            have h2 := (ih (k + 1)).mpr hmem
            rw [hlw] at h2
            simp at h2
          cases hatt : slot.attachment with
          | none => simpa using hnotin
          | some a =>
              cases a with
              | region ra =>
                  by_cases hro : ra.rendererObject = j
                  · subst hro
                    simp
                  · have hjr : ¬ j = ra.rendererObject := fun h => hro h.symm
                    simp [List.mem_cons, hnotin, hjr, hro]
              | boundingBox bn => simpa using hnotin

/-- With pairwise-distinct region targets, the (unique) region entry of
the draw order targeting `j` is the last write at `j`. -/
theorem lastWrite_of_mem_nodup (d : List Slot) (j : Nat) :
    ∀ (k i : Nat) (slot : Slot) (a : RegionAttachment),
      (i, slot) ∈ d.enumFrom k →
      slot.attachment = some (Attachment.region a) →
      a.rendererObject = j →
      (regionTargets d).Nodup →
      lastWrite d k j = some (i, slot.bone, a) := by
  induction d with
  | nil => intro k i slot a hmem; simp [List.enumFrom] at hmem
  | cons s2 rest ih =>
      intro k i slot a hmem hatt hro hnd
      have henum : (s2 :: rest).enumFrom k = (k, s2) :: rest.enumFrom (k + 1) := by
        simp [List.enumFrom]
      rw [henum] at hmem
      rw [regionTargets_cons] at hnd
      rw [lastWrite]
      rcases List.mem_cons.mp hmem with heq | hmem2
      · injection heq with hik hss
        subst hik
        subst hss
        rw [hatt] at hnd ⊢
        have hnotin : j ∉ regionTargets rest := by
          rw [← hro]
          exact (List.nodup_cons.mp hnd).1
        have hnone : lastWrite rest (i + 1) j = none := by
          cases hlw : lastWrite rest (i + 1) j with
          | none => rfl
          | some r =>
              exact absurd ((lastWrite_isSome_iff rest j (i + 1)).mp
                (by rw [hlw]; rfl)) hnotin
        rw [hnone]
        simp [hro]
      · have hnd2 : (regionTargets rest).Nodup := by
          cases hatt2 : s2.attachment with
          | none => rw [hatt2] at hnd; exact hnd
          | some b =>
              cases b with
              | region rb => rw [hatt2] at hnd; exact (List.nodup_cons.mp hnd).2
              | boundingBox bn => rw [hatt2] at hnd; exact hnd
        rw [ih (k + 1) i slot a hmem2 hatt hro hnd2]

/-- C3: for a region-type entry of the draw-order list (with the pool
targets pairwise distinct and in range), the presenter leaves that
sprite's style at exactly the source formulas: size
`(attachment.width * bone.worldScaleX, attachment.height * bone.worldScaleY)`,
rotation `-(bone.worldRotation + attachment.rotation) * pi / 180`,
anchor at half-size, position the bone-transformed world position minus
half-size, z-index the entry's index, visible. -/
theorem present_region_formulas (drawOrder : List Slot) (pool : List SpriteStyle)
    (i : Nat) (slot : Slot) (a : RegionAttachment)
    (hmem : (i, slot) ∈ drawOrder.enum)
    (hatt : slot.attachment = some (Attachment.region a))
    (hnd : (regionTargets drawOrder).Nodup)
    (hlen : a.rendererObject < pool.length) :
    (present drawOrder pool)[a.rendererObject]? = some (presentStyle i slot.bone a)
    ∧ (presentStyle i slot.bone a).width = a.width * slot.bone.worldScaleX
    ∧ (presentStyle i slot.bone a).height = a.height * slot.bone.worldScaleY
    ∧ (presentStyle i slot.bone a).r
        = (((-(slot.bone.worldRotation + a.rotation)) : Rat) : Real) * (Real.pi / 180)
    ∧ (presentStyle i slot.bone a).anchorX = a.width * slot.bone.worldScaleX / 2
    ∧ (presentStyle i slot.bone a).anchorY = a.height * slot.bone.worldScaleY / 2
    ∧ (presentStyle i slot.bone a).x
        = (slot.bone.worldX + a.x * slot.bone.m00 + a.y * slot.bone.m01)
          - a.width * slot.bone.worldScaleX / 2
    ∧ (presentStyle i slot.bone a).y
        = (slot.bone.worldY + a.x * slot.bone.m10 + a.y * slot.bone.m11)
          - a.height * slot.bone.worldScaleY / 2
    ∧ (presentStyle i slot.bone a).zIndex = i
    ∧ (presentStyle i slot.bone a).visible = true := by
  refine ⟨?_, rfl, rfl, rfl, rfl, rfl, rfl, rfl, rfl, rfl⟩
  unfold present
  have hj : a.rendererObject < (hideAll pool).length := by
    rw [hideAll_length]; exact hlen
  rw [show drawOrder.enum = drawOrder.enumFrom 0 from rfl]
  rw [foldl_presentStep_getElem drawOrder 0 (hideAll pool) a.rendererObject hj]
  rw [lastWrite_of_mem_nodup drawOrder a.rendererObject 0 i slot a hmem hatt rfl hnd]

/-- The bone of the C3 scenario: world position (100, 50), rotation 0,
scale (1, 1) - identity rotation/scale matrix. -/
def demoBone : Bone :=
  { worldX := 100, worldY := 50, worldRotation := 0
    worldScaleX := 1, worldScaleY := 1
    m00 := 1, m01 := 0, m10 := 0, m11 := 1 }

/-- The attachment of the C3 scenario: local offset (0, 0), rotation 0,
size 40 x 60, rendered by pool sprite 0. -/
def demoAttachment : RegionAttachment :=
  { name := "part", x := 0, y := 0, rotation := 0
    width := 40, height := 60, rendererObject := 0 }

/-- The single draw-order entry of the C3 scenario. -/
def demoSlot : Slot :=
  { bone := demoBone, attachment := some (Attachment.region demoAttachment) }

/-- A draw-order entry carrying a non-renderable bounding-box
attachment: skipped by the show loop. -/
def bboxSlot : Slot :=
  { bone := demoBone, attachment := some (Attachment.boundingBox "bb") }

/-- A pooled sprite in its initial state. -/
noncomputable def blankStyle : SpriteStyle :=
  { visible := false, anchorX := 0, anchorY := 0, width := 0, height := 0
    x := 0, y := 0, r := 0, zIndex := 0 }

/-- Witness for C3, the spec scenario: bone at (100, 50), rotation 0,
scale (1, 1); attachment offset (0, 0), rotation 0, size 40 x 60 - the
sprite is placed at (80, 20), size 40 x 60, rotation 0, visible. -/
theorem present_region_formulas_witness :
    (present [demoSlot] [blankStyle])[0]?
        = some (presentStyle 0 demoSlot.bone demoAttachment)
    ∧ (presentStyle 0 demoSlot.bone demoAttachment).x = 80
    ∧ (presentStyle 0 demoSlot.bone demoAttachment).y = 20
    ∧ (presentStyle 0 demoSlot.bone demoAttachment).width = 40
    ∧ (presentStyle 0 demoSlot.bone demoAttachment).height = 60
    ∧ (presentStyle 0 demoSlot.bone demoAttachment).r = 0
    ∧ (presentStyle 0 demoSlot.bone demoAttachment).visible = true := by
  have h := present_region_formulas [demoSlot] [blankStyle] 0 demoSlot demoAttachment
    (by simp [List.enum, List.enumFrom]) rfl
    (by rw [show regionTargets [demoSlot] = [0] from rfl]; simp)
    (by simp [demoAttachment])
  refine ⟨h.1, ?_, ?_, ?_, ?_, ?_, h.2.2.2.2.2.2.2.2.2⟩
  · rw [h.2.2.2.2.2.2.1]
    norm_num [demoSlot, demoBone, demoAttachment]
  · rw [h.2.2.2.2.2.2.2.1]
    norm_num [demoSlot, demoBone, demoAttachment]
  · rw [h.2.1]
    norm_num [demoSlot, demoBone, demoAttachment]
  · rw [h.2.2.1]
    norm_num [demoSlot, demoBone, demoAttachment]
  · rw [h.2.2.2.1]
    norm_num [demoSlot, demoBone, demoAttachment]

/-- C4: after a presentation pass (with the region targets pairwise
distinct), a pooled sprite is visible exactly when its index is targeted
by a region-type draw-order entry; a visible sprite's z-index is that
entry's index in the draw order; every sprite not targeted ends the pass
hidden. -/
theorem present_visible_iff (drawOrder : List Slot) (pool : List SpriteStyle)
    (j : Nat) (st : SpriteStyle)
    (hnd : (regionTargets drawOrder).Nodup)
    (hst : (present drawOrder pool)[j]? = some st) :
    (st.visible = true ↔ j ∈ regionTargets drawOrder)
    ∧ (∀ i slot a, (i, slot) ∈ drawOrder.enum →
        slot.attachment = some (Attachment.region a) → a.rendererObject = j →
        st.zIndex = i ∧ st.visible = true) := by
  have hjlen : j < pool.length := by
    have h1 := (List.getElem?_eq_some.mp hst).1
    rw [present_length] at h1
    exact h1
  have hjh : j < (hideAll pool).length := by rw [hideAll_length]; exact hjlen
  rw [show present drawOrder pool
      = (drawOrder.enumFrom 0).foldl presentStep (hideAll pool) from rfl] at hst
  rw [foldl_presentStep_getElem drawOrder 0 (hideAll pool) j hjh] at hst
  cases hlw : lastWrite drawOrder 0 j with
  | some r =>
      rw [hlw] at hst
      have hstyle : st = presentStyle r.1 r.2.1 r.2.2 := by
        injection hst with h1
        exact h1.symm
      have hvis : st.visible = true := by rw [hstyle]; rfl
      constructor
      · rw [hvis]
        simp only [true_iff]
        exact (lastWrite_isSome_iff drawOrder j 0).mp (by rw [hlw]; rfl)
      · intro i slot a hmem hatt hro
        have := lastWrite_of_mem_nodup drawOrder j 0 i slot a hmem hatt hro hnd
        rw [hlw] at this
        injection this with h2
        refine ⟨?_, hvis⟩
        rw [hstyle, h2]
        rfl
      | none =>
      rw [hlw] at hst
      rw [hideAll_getElem] at hst
      obtain ⟨st0, hst0, hst1⟩ := Option.map_eq_some'.mp hst
      have hvis : st.visible = false := by rw [← hst1]
      have hnotmem : j ∉ regionTargets drawOrder := fun hmem => by
        have h2 := (lastWrite_isSome_iff drawOrder j 0).mpr hmem
        rw [hlw] at h2
        simp at h2
      constructor
      · rw [hvis]
        simp [hnotmem]
      · intro i slot a hmem hatt hro
        have := lastWrite_of_mem_nodup drawOrder j 0 i slot a hmem hatt hro hnd
        rw [hlw] at this
        exact absurd this (by simp)

/-- Witness for C4: in the draw order `[demoSlot, bboxSlot]` over a
two-sprite pool, sprite 0 (targeted by the region entry at index 0) ends
the pass visible with z-index 0, and sprite 1 (untouched - the
bounding-box entry is skipped) ends it hidden. -/
theorem present_visible_iff_witness :
    (presentStyle 0 demoSlot.bone demoAttachment).visible = true
    ∧ (presentStyle 0 demoSlot.bone demoAttachment).zIndex = 0
    ∧ ({ blankStyle with visible := false } : SpriteStyle).visible = false := by
  have hnd : (regionTargets [demoSlot, bboxSlot]).Nodup := by
    rw [show regionTargets [demoSlot, bboxSlot] = [0] from rfl]
    simp
  have hst : (present [demoSlot, bboxSlot] [blankStyle, blankStyle])[0]?
      = some (presentStyle 0 demoSlot.bone demoAttachment) := by
    rw [show present [demoSlot, bboxSlot] [blankStyle, blankStyle]
        = ([demoSlot, bboxSlot].enumFrom 0).foldl presentStep
            (hideAll [blankStyle, blankStyle]) from rfl]
    rw [foldl_presentStep_getElem [demoSlot, bboxSlot] 0
      (hideAll [blankStyle, blankStyle]) 0 (by simp [hideAll])]
    rw [show lastWrite [demoSlot, bboxSlot] 0 0
        = some (0, demoSlot.bone, demoAttachment) from rfl]
  have h := present_visible_iff [demoSlot, bboxSlot] [blankStyle, blankStyle] 0
    (presentStyle 0 demoSlot.bone demoAttachment) hnd hst
  have h2 := h.2 0 demoSlot demoAttachment (by simp [List.enum, List.enumFrom]) rfl rfl
  have h3 := present_visible_iff [demoSlot, bboxSlot] [blankStyle, blankStyle] 1
    ({ blankStyle with visible := false }) hnd
    (by rw [show present [demoSlot, bboxSlot] [blankStyle, blankStyle]
          = ([demoSlot, bboxSlot].enumFrom 0).foldl presentStep
              (hideAll [blankStyle, blankStyle]) from rfl]
        rw [foldl_presentStep_getElem [demoSlot, bboxSlot] 0
          (hideAll [blankStyle, blankStyle]) 1 (by simp [hideAll])]
        rw [show lastWrite [demoSlot, bboxSlot] 0 1 = none from rfl]
        rw [hideAll_getElem]
        rfl)
  refine ⟨h2.2, h2.1, ?_⟩
  have hmem1 : (1 : Nat) ∉ regionTargets [demoSlot, bboxSlot] := by
    rw [show regionTargets [demoSlot, bboxSlot] = [0] from rfl]
    simp
  cases hb : ({ blankStyle with visible := false } : SpriteStyle).visible with
  | false => rfl
  | true => exact absurd (h3.1.mp hb) hmem1

end Spine
